import Mathlib

/-!
Verification development for the mitmproxy-ui interception-control plane.

The definitions below are a shallow embedding of the JavaScript source
(`lib/mockRules.js`, `lib/mitmproxy.js`, `server.js`) and of the Python
matcher text emitted by `generatePythonScript`.  Strings are modelled as
Lean `String`s (Unicode codepoint sequences, which on this data coincide
with byte comparisons), machine integers as `Nat`, JavaScript `undefined`
or `null` fields as `Option`, and thrown `Error`s as `Except String`.
Wall-clock timestamps and generated uuids are passed in as explicit
parameters, since the code only ever stores them verbatim.
-/

/-! ## Shell-glob matching (model of Python `fnmatch.fnmatch` on POSIX)

The generated matcher calls `fnmatch.fnmatch(url, pattern)`.  On POSIX
`os.path.normcase` is the identity, so matching is case-sensitive and
anchored to the whole string.  We model the `*` (any run of characters)
and `?` (any single character) metacharacters; bracket character classes
are not modelled (a `[` is treated as a literal character). -/

inductive GlobElem where
  | star : GlobElem
  | qmark : GlobElem
  | lit : Char → GlobElem
deriving Repr, DecidableEq

def parseGlob : List Char → List GlobElem
  | [] => []
  | c :: rest =>
    (if c = '*' then GlobElem.star
     else if c = '?' then GlobElem.qmark
     else GlobElem.lit c) :: parseGlob rest

def globMatch : List GlobElem → List Char → Bool
  | [], s => s.isEmpty
  | GlobElem.lit c :: p, s =>
    match s with
    | [] => false
    | d :: s' => decide (c = d) && globMatch p s'
  | GlobElem.qmark :: p, s =>
    match s with
    | [] => false
    | _ :: s' => globMatch p s'
  | GlobElem.star :: p, s => s.tails.any (fun t => globMatch p t)

/-- Declarative shell-glob semantics: a pattern matches a string iff the
whole string is consumed (anchored), literals compare case-sensitively,
`?` consumes exactly one character and `*` consumes any run. -/
inductive GlobMatches : List GlobElem → List Char → Prop where
  | nil : GlobMatches [] []
  | lit (c : Char) (p : List GlobElem) (s : List Char) :
      GlobMatches p s → GlobMatches (GlobElem.lit c :: p) (c :: s)
  | qmark (c : Char) (p : List GlobElem) (s : List Char) :
      GlobMatches p s → GlobMatches (GlobElem.qmark :: p) (c :: s)
  | star (u : List Char) (p : List GlobElem) (s : List Char) :
      GlobMatches p s → GlobMatches (GlobElem.star :: p) (u ++ s)

/-! ## Regular-expression matching (model of Python `re.search`)

The generated matcher calls `re.search(pattern, url)` inside a
`try/except re.error` that turns an unparsable pattern into a non-match.
We model the core fragment of Python regexes: literal characters,
backslash escapes (as literals), `.` (any character except a newline)
and the postfix `*` repetition.  A `*` with nothing to repeat, a
repeated repetition such as `a**`, and a dangling trailing backslash are
parse errors (`re.error` in Python), modelled as `none`. -/

inductive RAtom where
  | rchar : Char → RAtom
  | rdot : RAtom
deriving Repr, DecidableEq

inductive RElem where
  | once : RAtom → RElem
  | star : RAtom → RElem
deriving Repr, DecidableEq

def parseRegex : List Char → Option (List RElem)
  | [] => some []
  | '*' :: _ => none
  | '\\' :: [] => none
  | '\\' :: c :: '*' :: rest => (parseRegex rest).map (RElem.star (RAtom.rchar c) :: ·)
  | '\\' :: c :: rest => (parseRegex rest).map (RElem.once (RAtom.rchar c) :: ·)
  | '.' :: '*' :: rest => (parseRegex rest).map (RElem.star RAtom.rdot :: ·)
  | '.' :: rest => (parseRegex rest).map (RElem.once RAtom.rdot :: ·)
  | c :: '*' :: rest => (parseRegex rest).map (RElem.star (RAtom.rchar c) :: ·)
  | c :: rest => (parseRegex rest).map (RElem.once (RAtom.rchar c) :: ·)

def atomMatches : RAtom → Char → Bool
  | RAtom.rchar c, d => decide (c = d)
  | RAtom.rdot, d => decide (d ≠ '\n')

/-- The suffixes of `s` reachable by letting a starred atom `a` consume
a (possibly empty) run of matching characters from the front. -/
def starSuffixes (a : RAtom) : List Char → List (List Char)
  | [] => [[]]
  | c :: s => (c :: s) :: (if atomMatches a c then starSuffixes a s else [])

def reMatchHere : List RElem → List Char → Bool
  | [], _ => true
  | RElem.once a :: p, s =>
    match s with
    | [] => false
    | c :: s' => atomMatches a c && reMatchHere p s'
  | RElem.star a :: p, s => (starSuffixes a s).any (fun t => reMatchHere p t)

def reSearch (p : List RElem) : List Char → Bool
  | [] => reMatchHere p []
  | c :: s => reMatchHere p (c :: s) || reSearch p s

/-- Declarative semantics of the modelled regex fragment: the pattern
matches exactly the given character list. -/
inductive REMatches : List RElem → List Char → Prop where
  | nil : REMatches [] []
  | once (a : RAtom) (c : Char) (p : List RElem) (s : List Char) :
      atomMatches a c = true → REMatches p s → REMatches (RElem.once a :: p) (c :: s)
  | starNil (a : RAtom) (p : List RElem) (s : List Char) :
      REMatches p s → REMatches (RElem.star a :: p) s
  | starCons (a : RAtom) (c : Char) (p : List RElem) (s : List Char) :
      atomMatches a c = true → REMatches (RElem.star a :: p) s →
      REMatches (RElem.star a :: p) (c :: s)

/-! ## Data model

`Rule` mirrors the objects built by `create` in `lib/mockRules.js`;
`Request` mirrors the `(flow.request.pretty_url, flow.request.method)`
pair read by the generated addon.  Headers are an ordered mapping. -/

structure Rule where
  id : String
  enabled : Bool
  createdAt : String
  updatedAt : String
  urlPattern : String
  urlPatternType : String
  method : String
  statusCode : Nat
  headers : List (String × String)
  body : String
  delay : Nat
  description : String
deriving Repr, DecidableEq

structure Request where
  url : String
  method : String
deriving Repr, DecidableEq

/-! ## The generated matcher (source: `generatePythonScript`)

`match_url`, `match_method` and `addonDecide` are the Lean embedding of
the Python functions `match_url`, `match_method` and the first-match
loop of `MockRulesAddon.request` that `generatePythonScript` emits as
text.  `generatedSnapshot` is the `rules.filter(r => r.enabled)`
snapshot embedded as the inert `MOCK_RULES` data of the artifact. -/

def match_url (pattern patternType url : String) : Bool :=
  if patternType = "exact" then decide (url = pattern)
  else if patternType = "wildcard" then globMatch (parseGlob pattern.data) url.data
  else if patternType = "regex" then
    match parseRegex pattern.data with
    | none => false
    | some p => reSearch p url.data
  else false

def match_method (ruleMethod requestMethod : String) : Bool :=
  if ruleMethod = "ANY" then true
  else decide (ruleMethod.toUpper = requestMethod.toUpper)

def addonDecide : List Rule → Request → Option Rule
  | [], _ => none
  | r :: rs, req =>
    if r.enabled then
      if match_url r.urlPattern r.urlPatternType req.url then
        if match_method r.method req.method then some r
        else addonDecide rs req
      else addonDecide rs req
    else addonDecide rs req

def generatedSnapshot (rules : List Rule) : List Rule :=
  rules.filter (fun r => r.enabled)

/-- Decision of an emitted artifact: the generated script runs the
first-match loop over the enabled-rule snapshot captured at generation
time. -/
def artifactDecide (rules : List Rule) (req : Request) : Option Rule :=
  addonDecide (generatedSnapshot rules) req

namespace MatchEngine

/-- Modelled from the spec: the in-process MatchEngine (the repository's
live matcher script is not part of the sources).  `urlMatch`: `exact` is
byte-equal comparison against the full URL, `wildcard` is anchored
case-sensitive shell glob, `regex` is unanchored substring search with
an invalid pattern treated as non-matching. -/
def urlMatch (r : Rule) (url : String) : Bool :=
  if r.urlPatternType = "exact" then decide (url = r.urlPattern)
  else if r.urlPatternType = "wildcard" then globMatch (parseGlob r.urlPattern.data) url.data
  else if r.urlPatternType = "regex" then
    match parseRegex r.urlPattern.data with
    | none => false
    | some p => reSearch p url.data
  else false

/-- Modelled from the spec: rule method `ANY` always matches; otherwise
case-insensitive exact match against the request method. -/
def methodMatch (r : Rule) (m : String) : Bool :=
  if r.method = "ANY" then true
  else decide (r.method.toUpper = m.toUpper)

/-- Modelled from the spec: the predicate `matches` (a Lean keyword, hence
named `matchesReq` here) = urlMatch AND methodMatch. -/
def matchesReq (r : Rule) (req : Request) : Bool :=
  urlMatch r req.url && methodMatch r req.method

/-- Modelled from the spec: iterate rules in stored order, skip disabled
rules, return the first rule whose predicate matches, else none. -/
def decide (req : Request) (rules : List Rule) : Option Rule :=
  rules.find? (fun r => r.enabled && matchesReq r req)

end MatchEngine

/-! ## RuleStore (source: `create`/`update`/`remove`/`toggle` in `lib/mockRules.js`)

Each operation is modelled in store-passing style: it receives the rule
collection read by `loadRules()` and returns the collection durably on
disk after the call together with the call's result.  The JavaScript
code throws `Rule not found` before any call to `saveRules`, so an error
branch leaves the collection it loaded untouched.  JavaScript truthiness
defaulting (`x || d`) is modelled by `jsOrStr`/`jsOrNat`/`jsOrHeaders`:
an absent field is `none`, an empty string and the number `0` are falsy,
and any present object (headers) is truthy. -/

def defaultHeaders : List (String × String) := [("Content-Type", "application/json")]

def jsOrStr : Option String → String → String
  | none, d => d
  | some s, d => if s = "" then d else s

def jsOrNat : Option Nat → Nat → Nat
  | none, d => d
  | some n, d => if n = 0 then d else n

def jsOrHeaders : Option (List (String × String)) → List (String × String) →
    List (String × String)
  | none, d => d
  | some h, _ => h

structure CreateData where
  enabled : Option Bool := none
  urlPattern : Option String := none
  urlPatternType : Option String := none
  method : Option String := none
  statusCode : Option Nat := none
  headers : Option (List (String × String)) := none
  body : Option String := none
  delay : Option Nat := none
  description : Option String := none
deriving Repr, DecidableEq

/-- Fields a caller may supply to `update`.  The JavaScript spread
`{...rules[index], ...updates, id, updatedAt: now}` merges every
supplied field, then forces `id` back to the looked-up id and

`updatedAt` to the call time. -/
structure RulePatch where
  id : Option String := none
  enabled : Option Bool := none
  createdAt : Option String := none
  updatedAt : Option String := none
  urlPattern : Option String := none
  urlPatternType : Option String := none
  method : Option String := none
  statusCode : Option Nat := none
  headers : Option (List (String × String)) := none
  body : Option String := none
  delay : Option Nat := none
  description : Option String := none
deriving Repr, DecidableEq

def notFoundMsg (id : String) : String := "Rule not found: " ++ id

namespace RuleStore

def create (store : List Rule) (d : CreateData) (newId now : String) :
    List Rule × Rule :=
  let newRule : Rule :=
    { id := newId
      enabled := true
      createdAt := now
      updatedAt := now
      urlPattern := jsOrStr d.urlPattern "*"
      urlPatternType := jsOrStr d.urlPatternType "wildcard"
      method := jsOrStr d.method "ANY"
      statusCode := jsOrNat d.statusCode 200
      headers := jsOrHeaders d.headers defaultHeaders
      body := jsOrStr d.body "{}"
      delay := jsOrNat d.delay 0
      description := jsOrStr d.description "" }
  (store ++ [newRule], newRule)

def mergeRule (r : Rule) (u : RulePatch) (theId now : String) : Rule :=
  { id := theId
    enabled := u.enabled.getD r.enabled
    createdAt := u.createdAt.getD r.createdAt
    updatedAt := now
    urlPattern := u.urlPattern.getD r.urlPattern
    urlPatternType := u.urlPatternType.getD r.urlPatternType
    method := u.method.getD r.method
    statusCode := u.statusCode.getD r.statusCode
    headers := u.headers.getD r.headers
    body := u.body.getD r.body
    delay := u.delay.getD r.delay
    description := u.description.getD r.description }

def update : List Rule → String → RulePatch → String → List Rule × Except String Rule
  | [], id, _, _ => ([], Except.error (notFoundMsg id))
  | r :: rs, id, u, now =>
    if r.id = id then
      (mergeRule r u id now :: rs, Except.ok (mergeRule r u id now))
    else
      let rest := update rs id u now
      (r :: rest.1, rest.2)

def remove (store : List Rule) (id : String) : List Rule × Except String String :=
  let filtered := store.filter (fun r => decide (r.id ≠ id))
  if filtered.length = store.length then (store, Except.error (notFoundMsg id))
  else (filtered, Except.ok id)

def toggle (store : List Rule) (id : String) (now : String) :
    List Rule × Except String Rule :=
  match store.find? (fun r => decide (r.id = id)) with
  | none => (store, Except.error (notFoundMsg id))
  | some r => update store id { enabled := some (!r.enabled) } now

end RuleStore

/-! ## TrafficBus (source: `POST /api/traffic` handler in `server.js`)

The handler pushes the transaction onto `trafficHistory` and, when the
length exceeds `MAX_TRAFFIC_HISTORY`, shifts off the oldest entry. -/

def MAX_TRAFFIC_HISTORY : Nat := 500

def trafficIngest {α : Type} (history : List α) (t : α) : List α :=
  let pushed := history ++ [t]
  if MAX_TRAFFIC_HISTORY < pushed.length then pushed.drop 1 else pushed

def ingestAll {α : Type} (txs : List α) : List α :=
  txs.foldl trafficIngest []

/-! ## ProcessSupervisor (source: `start` in `lib/mitmproxy.js`)

The module keeps two globals: `isRunning` (set to `true` only once a
readiness marker is observed on stdout/stderr, or by the 10-second
fallback when the process is still alive) and `mitmproxyProcess` (the
handle, assigned at spawn, cleared on close).  `startCall` models one
invocation of `start` up to its synchronous guard and spawn; the
asynchronous resolution events are modelled separately. -/

structure SupervisorState where
  isRunning : Bool
  proc : Option Nat
deriving Repr, DecidableEq

def supervisorInit : SupervisorState := { isRunning := false, proc := none }

inductive StartOutcome where
  | rejectedAlreadyRunning : StartOutcome
  | spawned : Nat → StartOutcome
deriving Repr, DecidableEq

def startCall (s : SupervisorState) (newPid : Nat) : StartOutcome × SupervisorState :=
  if s.isRunning then (StartOutcome.rejectedAlreadyRunning, s)
  else (StartOutcome.spawned newPid, { isRunning := false, proc := some newPid })

/-- A readiness marker observed on either output stream (or the alive
fallback after the timeout): sets `isRunning` and resolves the pending
`start` as Running. -/
def markerObserved (s : SupervisorState) : SupervisorState :=
  { s with isRunning := true }

/-- The `close` event of the child process: clears both globals. -/
def processClosed (_ : SupervisorState) : SupervisorState :=
  { isRunning := false, proc := none }

/-! ## RecordingStore (source: recording functions in `lib/mockRules.js`)

The module keeps `currentRecording` and `recordedRequests` globals;
operations are modelled in state-passing style like the RuleStore. -/

structure RespData where
  status : Nat
  headers : Option (List (String × String))
  body : Option String
deriving Repr, DecidableEq

structure Transaction where
  url : String
  method : String
  response : Option RespData
deriving Repr, DecidableEq

structure RecordedTransaction where
  tx : Transaction
  recordedAt : String
deriving Repr, DecidableEq

structure RecordingMeta where
  id : String
  name : String
  startedAt : String
deriving Repr, DecidableEq

structure RecState where
  currentRecording : Option RecordingMeta
  recordedRequests : List RecordedTransaction
deriving Repr, DecidableEq

def recInit : RecState := { currentRecording := none, recordedRequests := [] }

def autoName (now : String) : String := "Recording " ++ now

def startRecording (s : RecState) (name : Option String) (newId now : String) :
    RecState × Except String RecordingMeta :=
  match s.currentRecording with
  | some _ => (s, Except.error "Recording already in progress")
  | none =>
    let meta : RecordingMeta :=
      { id := newId, name := jsOrStr name (autoName now), startedAt := now }
    ({ currentRecording := some meta, recordedRequests := [] }, Except.ok meta)

def addToRecording (s : RecState) (t : Transaction) (now : String) : RecState :=
  match s.currentRecording with
  | none => s
  | some _ =>
    { s with recordedRequests := s.recordedRequests ++ [{ tx := t, recordedAt := now }] }

structure Recording where
  id : String
  name : String
  startedAt : String
  endedAt : String
  requests : List RecordedTransaction
deriving Repr, DecidableEq

def stopRecording (s : RecState) (now : String) : RecState × Except String Recording :=
  match s.currentRecording with
  | none => (s, Except.error "No recording in progress")
  | some meta =>
    (recInit,
     Except.ok
       { id := meta.id, name := meta.name, startedAt := meta.startedAt,
         endedAt := now, requests := s.recordedRequests })

/-- The `CreateData` that `recordingToRules` passes to `create` for one
captured transaction carrying a response. -/
def ruleDataFromTx (recName : String) (t : Transaction) (resp : RespData) : CreateData :=
  { urlPattern := some t.url
    urlPatternType := some "exact"
    method := some t.method
    statusCode := some resp.status
    headers := some (jsOrHeaders resp.headers defaultHeaders)
    body := some (jsOrStr resp.body "{}")
    description := some ("From recording: " ++ recName) }

def recordingToRulesAux (recName : String) (store : List Rule)
    (txs : List RecordedTransaction) (ids times : Nat → String) (k : Nat) :
    List Rule × List Rule :=
  match txs with
  | [] => (store, [])
  | rt :: rest =>
    match rt.tx.response with
    | none => recordingToRulesAux recName store rest ids times k
    | some resp =>
      let step := RuleStore.create store (ruleDataFromTx recName rt.tx resp) (ids k) (times k)
      let restRes := recordingToRulesAux recName step.1 rest ids times (k + 1)
      (restRes.1, step.2 :: restRes.2)

/-- `recordingToRules` walks the persisted recording's requests in order
and calls `create` once for every request that carries a response; the
`ids`/`times` streams supply the uuid and timestamp of the k-th created
rule.  Returns the resulting store and the created rules. -/
def recordingToRules (store : List Rule) (rec : Recording) (ids times : Nat → String) :
    List Rule × List Rule :=
  recordingToRulesAux rec.name store rec.requests ids times 0

/-! ## Concrete sample data used by witness and counterexample theorems -/

def ruleW : Rule :=
  { id := "r1", enabled := true, createdAt := "2024-01-01T00:00:00Z",
    updatedAt := "2024-01-01T00:00:00Z", urlPattern := "*", urlPatternType := "wildcard",
    method := "ANY", statusCode := 200, headers := defaultHeaders, body := "{}",
    delay := 0, description := "" }

def ruleDisabledW : Rule := { ruleW with id := "r0", enabled := false }

def reqW : Request := { url := "https://h/api/v2/login?x=1", method := "GET" }

def recFalsyW : Recording :=
  { id := "rec1", name := "R", startedAt := "t0", endedAt := "t9",
    requests := [{ tx := { url := "", method := "",
                           response := some { status := 0, headers := none, body := some "" } },
                   recordedAt := "ta" }] }

def recMixedW : Recording :=
  { id := "rec2", name := "S", startedAt := "t0", endedAt := "t9",
    requests :=
      [{ tx := { url := "https://a/x", method := "GET",
                 response := some { status := 201, headers := some defaultHeaders,
                                    body := some "one" } }, recordedAt := "ta" },
       { tx := { url := "https://a/y", method := "POST", response := none },
         recordedAt := "tb" },
       { tx := { url := "https://a/z", method := "GET",
                 response := some { status := 404, headers := none, body := some "two" } },
         recordedAt := "tc" }] }

def recActiveW : RecState :=
  { currentRecording := some { id := "rid", name := "n", startedAt := "t0" },
    recordedRequests := [] }

def txW : Transaction := { url := "https://a", method := "GET", response := none }

/-- How a rule created by `recordingToRules` reflects the captured
transaction it came from: `exact` pattern type, enabled, the
transaction's URL and method except that falsy values fall back to the
`create` defaults, and the recorded response's status/headers/body with
the same falsy fallbacks. -/
def ruleReflectsTx (rt : RecordedTransaction) (r : Rule) : Prop :=
  r.urlPatternType = "exact" ∧ r.enabled = true ∧
  r.urlPattern = (if rt.tx.url = "" then "*" else rt.tx.url) ∧
  r.method = (if rt.tx.method = "" then "ANY" else rt.tx.method) ∧
  ∀ resp, rt.tx.response = some resp →
    r.statusCode = (if resp.status = 0 then 200 else resp.status) ∧
    r.headers = jsOrHeaders resp.headers defaultHeaders ∧
    r.body = jsOrStr resp.body "{}"

def dFalsyW : CreateData :=
  { enabled := some false, urlPattern := some "", statusCode := some 0,
    body := some "", delay := some 0 }

/-! ## Matcher semantics lemmas -/

theorem globMatch_star_iff (p : List GlobElem) (s : List Char) :
    globMatch (GlobElem.star :: p) s = true ↔
      ∃ u v, s = u ++ v ∧ globMatch p v = true := by
  simp only [globMatch, List.any_eq_true]
  constructor
  · rintro ⟨t, ht, hgt⟩
    obtain ⟨u, hu⟩ := (List.mem_tails t s).mp ht
    exact ⟨u, t, hu.symm, hgt⟩
  · rintro ⟨u, v, huv, hv⟩
    exact ⟨v, (List.mem_tails v s).mpr ⟨u, huv.symm⟩, hv⟩

theorem globMatch_correct (p : List GlobElem) (s : List Char) :
    globMatch p s = true ↔ GlobMatches p s := by
  induction p generalizing s with
  | nil =>
    simp only [globMatch, List.isEmpty_iff]
    constructor
    · intro h; subst h; exact GlobMatches.nil
    · intro h; cases h; rfl
  | cons e p ih =>
    cases e with
    | star =>
      rw [globMatch_star_iff]
      constructor
      · rintro ⟨u, v, huv, hv⟩
        subst huv
        exact GlobMatches.star u p v ((ih v).mp hv)
      · intro h
        cases h with
        | star u _ v hv => exact ⟨u, v, rfl, (ih v).mpr hv⟩
    | qmark =>
      cases s with
      | nil =>
        simp only [globMatch]
        constructor
        · intro h; cases h
        · intro h; cases h
      | cons c s =>
        simp only [globMatch]
        constructor
        · intro h; exact GlobMatches.qmark c p s ((ih s).mp h)
        · intro h; cases h with | qmark _ _ _ hs => exact (ih s).mpr hs
    | lit c =>
      cases s with
      | nil =>
        simp only [globMatch]
        constructor
        · intro h; cases h
        · intro h; cases h
      | cons d s =>
        simp only [globMatch, Bool.and_eq_true, decide_eq_true_eq]
        constructor
        · rintro ⟨hcd, hs⟩
          subst hcd
          exact GlobMatches.lit c p s ((ih s).mp hs)
        · intro h
          cases h with | lit _ _ _ hs => exact ⟨rfl, (ih s).mpr hs⟩

theorem mem_starSuffixes (a : RAtom) (s t : List Char) :
    t ∈ starSuffixes a s ↔
      ∃ u, s = u ++ t ∧ ∀ c ∈ u, atomMatches a c = true := by
  induction s with
  | nil =>
    simp only [starSuffixes, List.mem_singleton]
    constructor
    · rintro rfl; exact ⟨[], rfl, by simp⟩
    · rintro ⟨u, hu, -⟩
      rcases List.append_eq_nil.mp hu.symm with ⟨rfl, rfl⟩
      rfl
  | cons c s ih =>
    by_cases hc : atomMatches a c = true
    · simp only [starSuffixes, if_pos hc, List.mem_cons]
      constructor
      · rintro (rfl | ht)
        · exact ⟨[], rfl, by simp⟩
        · obtain ⟨u, hu, hall⟩ := ih.mp ht
          refine ⟨c :: u, by simp [hu], ?_⟩
          intro d hd
          rcases List.mem_cons.mp hd with rfl | hd
          · exact hc
          · exact hall d hd
      · rintro ⟨u, hu, hall⟩
        cases u with
        | nil => left; simpa using hu.symm
        | cons d u' =>
          right
          injection hu with h1 h2
          subst h1
          exact ih.mpr ⟨u', h2, fun e he => hall e (List.mem_cons_of_mem _ he)⟩
    · simp only [starSuffixes, if_neg hc, List.mem_cons, List.not_mem_nil, or_false]
      constructor
      · rintro rfl; exact ⟨[], rfl, by simp⟩
      · rintro ⟨u, hu, hall⟩
        cases u with
        | nil => simpa using hu.symm
        | cons d u' =>
          injection hu with h1 h2
          subst h1
          exact absurd (hall c (by simp)) hc

theorem REMatches_star_build (a : RAtom) (p : List RElem) (v : List Char)
    (hm : REMatches p v) :
    ∀ u, (∀ c ∈ u, atomMatches a c = true) → REMatches (RElem.star a :: p) (u ++ v) := by
  intro u
  induction u with
  | nil => intro _; exact REMatches.starNil a p v hm
  | cons c u ih =>
    intro hall
    exact REMatches.starCons a c p (u ++ v) (hall c (by simp))
      (ih fun d hd => hall d (List.mem_cons_of_mem _ hd))

theorem REMatches_star_iff (a : RAtom) (p : List RElem) (s : List Char) :
    REMatches (RElem.star a :: p) s ↔
      ∃ u v, s = u ++ v ∧ (∀ c ∈ u, atomMatches a c = true) ∧ REMatches p v := by
  constructor
  · intro h
    generalize hq : RElem.star a :: p = q at h
    revert hq
    induction h with
    | nil => intro hq; simp at hq
    | once a' c p' s' hc hm ih => intro hq; simp at hq
    | starNil a' p' s' hm =>
      intro hq
      injection hq with h1 h2
      injection h1 with h1
      subst h1; subst h2
      exact ⟨[], s', rfl, by simp, hm⟩
    | starCons a' c p' s' hc hm ih =>
      intro hq
      obtain ⟨u, v, huv, hall, hm'⟩ := ih hq
      injection hq with h1 h2
      injection h1 with h1
      subst h1
      refine ⟨c :: u, v, by simp [huv], ?_, hm'⟩
      intro d hd
      rcases List.mem_cons.mp hd with rfl | hd
      · exact hc
      · exact hall d hd
  · rintro ⟨u, v, rfl, hall, hm⟩
    exact REMatches_star_build a p v hm u hall

/-- `reMatchHere` decides whether the pattern matches some prefix of the
input, exactly as Python's `re.match` does at a fixed start position. -/
theorem reMatchHere_iff (p : List RElem) (s : List Char) :
    reMatchHere p s = true ↔ ∃ u v, s = u ++ v ∧ REMatches p u := by
  induction p generalizing s with
  | nil =>
    simp only [reMatchHere]
    constructor
    · intro _
      exact ⟨[], s, rfl, REMatches.nil⟩
    · intro _; trivial
  | cons e p ih =>
    cases e with
    | once a =>
      cases s with
      | nil =>
        simp only [reMatchHere]
        constructor
        · intro h; cases h
        · rintro ⟨u, v, huv, hm⟩
          cases hm with
          | once _ c _ s' _ _ => simp at huv
      | cons c s =>
        simp only [reMatchHere, Bool.and_eq_true]
        constructor
        · rintro ⟨hc, hs⟩
          obtain ⟨u, v, huv, hm⟩ := (ih s).mp hs
          exact ⟨c :: u, v, by simp [huv], REMatches.once a c p u hc hm⟩
        · rintro ⟨u, v, huv, hm⟩
          cases hm with
          | once _ c' _ u' hc' hm' =>
            have hc : c = c' := by simpa using congrArg List.head? huv
            have hs : s = u' ++ v := by simpa using congrArg List.tail huv
            subst hc
            exact ⟨hc', (ih s).mpr ⟨u', v, hs, hm'⟩⟩
    | star a =>
      simp only [reMatchHere, List.any_eq_true]
      constructor
      · rintro ⟨t, ht, hgt⟩
        obtain ⟨u, hu, hall⟩ := (mem_starSuffixes a s t).mp ht
        obtain ⟨m, w, hmw, hm⟩ := (ih t).mp hgt
        refine ⟨u ++ m, w, by simp [hu, hmw], ?_⟩
        exact (REMatches_star_iff a p (u ++ m)).mpr ⟨u, m, rfl, hall, hm⟩
      · rintro ⟨U, V, hUV, hm⟩
        obtain ⟨u, m, hum, hall, hm'⟩ := (REMatches_star_iff a p U).mp hm
        refine ⟨m ++ V, ?_, ?_⟩
        · exact (mem_starSuffixes a s (m ++ V)).mpr ⟨u, by simp [hUV, hum], hall⟩
        · exact (ih (m ++ V)).mpr ⟨m, V, rfl, hm'⟩

/-- `reSearch` tries the pattern at every start position of the input,
exactly as Python's unanchored `re.search` does. -/
theorem reSearch_iff_matchHere (p : List RElem) (s : List Char) :
    reSearch p s = true ↔ ∃ u v, s = u ++ v ∧ reMatchHere p v = true := by
  induction s with
  | nil =>
    simp only [reSearch]
    constructor
    · intro h
      exact ⟨[], [], rfl, h⟩
    · rintro ⟨u, v, huv, hv⟩
      rcases List.append_eq_nil.mp huv.symm with ⟨hu, hv0⟩
      subst hu; subst hv0; exact hv
  | cons c s ih =>
    simp only [reSearch, Bool.or_eq_true]
    constructor
    · rintro (h | h)
      · exact ⟨[], c :: s, rfl, h⟩
      · rcases ih.mp h with ⟨u, v, huv, hv⟩
        exact ⟨c :: u, v, by simp [huv], hv⟩
    · rintro ⟨u, v, huv, hv⟩
      cases u with
      | nil => left; simpa using huv ▸ hv
      | cons d u' =>
        right
        apply ih.mpr
        refine ⟨u', v, ?_, hv⟩
        simpa using congrArg List.tail huv

/-- Unanchored substring search: `reSearch` succeeds exactly when the
pattern matches some contiguous substring of the input. -/
theorem reSearch_iff (p : List RElem) (s : List Char) :
    reSearch p s = true ↔ ∃ u m w, s = u ++ m ++ w ∧ REMatches p m := by
  rw [reSearch_iff_matchHere]
  constructor
  · rintro ⟨u, v, huv, hv⟩
    rcases (reMatchHere_iff p v).mp hv with ⟨m, w, hmw, hm⟩
    exact ⟨u, m, w, by simp [huv, hmw], hm⟩
  · rintro ⟨u, m, w, humw, hm⟩
    exact ⟨u, m ++ w, by simpa using humw, (reMatchHere_iff p (m ++ w)).mpr ⟨m, w, rfl, hm⟩⟩

/-! ## Matcher equivalence lemmas -/

theorem urlMatch_eq_match_url (r : Rule) (u : String) :
    MatchEngine.urlMatch r u = match_url r.urlPattern r.urlPatternType u := rfl

theorem methodMatch_eq_match_method (r : Rule) (m : String) :
    MatchEngine.methodMatch r m = match_method r.method m := rfl

theorem addonDecide_eq_find (rules : List Rule) (req : Request) :
    addonDecide rules req =
      rules.find? (fun r => r.enabled && MatchEngine.matchesReq r req) := by
  induction rules with
  | nil => rfl
  | cons r rs ih =>
    simp only [addonDecide]
    by_cases he : r.enabled <;>
      by_cases hu : match_url r.urlPattern r.urlPatternType req.url <;>
      by_cases hm : match_method r.method req.method <;>
      simp [MatchEngine.matchesReq, urlMatch_eq_match_url, methodMatch_eq_match_method,
        he, hu, hm, ih, List.find?]

theorem find_filter_enabled (rules : List Rule) (q : Rule → Bool) :
    (rules.filter (fun r => r.enabled)).find? (fun r => r.enabled && q r) =
      rules.find? (fun r => r.enabled && q r) := by
  induction rules with
  | nil => rfl
  | cons r rs ih =>
    by_cases he : r.enabled <;> by_cases hq : q r <;>
      simp [List.filter_cons, List.find?, he, hq, ih]

/-- C1: for every rule-store snapshot and every request descriptor, the
matcher embedded in the generated standalone artifact (the enabled-rule
snapshot `MOCK_RULES` plus the `match_url`/`match_method` first-match
loop) reaches the same decision—same matched rule or no match—as the
in-process MatchEngine's `decide` on the same snapshot.  The artifact's
decision is a pure function of the snapshot captured at generation time
(`generatedSnapshot rules`), so rule-store changes made after generation
cannot affect an already-emitted artifact. -/
theorem artifact_matches_engine_decision :
    ∀ (rules : List Rule) (req : Request),
      artifactDecide rules req = MatchEngine.decide req rules := by
  intro rules req
  unfold artifactDecide generatedSnapshot MatchEngine.decide
  rw [addonDecide_eq_find, find_filter_enabled]

/-- C2: `decide` returns the first enabled rule in stored order whose
predicate (urlMatch AND methodMatch) holds; it returns `none` exactly
when no enabled rule matches; and a disabled rule is skipped — deleting
a disabled rule from the list never changes the decision, so a disabled
rule whose predicate holds does not shadow a later enabled match. -/
theorem decide_first_enabled_match :
    ∀ (rules : List Rule) (req : Request),
      (∀ r, MatchEngine.decide req rules = some r →
        r.enabled = true ∧ MatchEngine.matchesReq r req = true ∧
        ∃ l₁ l₂, rules = l₁ ++ r :: l₂ ∧
          ∀ x ∈ l₁, x.enabled = false ∨ MatchEngine.matchesReq x req = false) ∧
      (MatchEngine.decide req rules = none ↔
        ∀ r ∈ rules, r.enabled = true → MatchEngine.matchesReq r req = false) ∧
      (∀ l₁ d l₂, rules = l₁ ++ d :: l₂ → d.enabled = false →
        MatchEngine.decide req rules = MatchEngine.decide req (l₁ ++ l₂)) := by
  intro rules req
  refine ⟨?_, ?_, ?_⟩
  · intro r hr
    rw [MatchEngine.decide, List.find?_eq_some] at hr
    obtain ⟨hp, l₁, l₂, hl, hfail⟩ := hr
    rw [Bool.and_eq_true] at hp
    refine ⟨hp.1, hp.2, l₁, l₂, hl, ?_⟩
    intro x hx
    have := hfail x hx
    simp only [Bool.not_eq_eq_eq_not, Bool.not_true, Bool.and_eq_false_iff] at this
    exact this
  · rw [MatchEngine.decide, List.find?_eq_none]
    constructor
    · intro h r hr he
      have := h r hr
      simpa [he] using this
    · intro h r hr
      by_cases he : r.enabled
      · simp [he, h r hr he]
      · simp [he]
  · intro l₁ d l₂ hl hd
    subst hl
    simp only [MatchEngine.decide, List.find?_append]
    have hpd : (d.enabled && MatchEngine.matchesReq d req) = false := by
      simp [hd]
    cases hfind : l₁.find? (fun r => r.enabled && MatchEngine.matchesReq r req) with
    | some r => simp
    | none =>
      simp only [Option.none_or]
      rw [List.find?_cons_of_neg]
      simp [hpd]

/-- Witness for C2: on a concrete rule list, the disabled matching rule
in front does not shadow the enabled rule behind it. -/
theorem decide_first_enabled_match_witness :
    MatchEngine.decide reqW [ruleDisabledW, ruleW] = MatchEngine.decide reqW [ruleW] ∧
    MatchEngine.decide reqW [ruleW] = some ruleW :=
  ⟨(decide_first_enabled_match [ruleDisabledW, ruleW] reqW).2.2 [] ruleDisabledW [ruleW]
      rfl rfl,
   by decide⟩

/-- C3: `exact` matching is full-string equality (hence case-sensitive);
`wildcard` matching is exactly the anchored, case-sensitive shell-glob
relation `GlobMatches`; a syntactically invalid regex pattern matches no
URL (`match_url` is a total function, so no error is ever raised); and a
valid regex pattern performs unanchored substring search: it succeeds
exactly when the pattern matches some contiguous substring of the URL. -/
theorem match_url_semantics :
    ∀ (pattern url : String),
      (match_url pattern "exact" url = true ↔ url = pattern) ∧
      (match_url pattern "wildcard" url = true ↔
        GlobMatches (parseGlob pattern.data) url.data) ∧
      (parseRegex pattern.data = none → match_url pattern "regex" url = false) ∧
      (∀ p, parseRegex pattern.data = some p →
        (match_url pattern "regex" url = true ↔
          ∃ u m w, url.data = u ++ m ++ w ∧ REMatches p m)) := by
  intro pattern url
  have hex : match_url pattern "exact" url = decide (url = pattern) := by
    simp [match_url]
  have hwc : match_url pattern "wildcard" url =
      globMatch (parseGlob pattern.data) url.data := by
    simp [match_url]
  have hre : match_url pattern "regex" url =
      (match parseRegex pattern.data with
       | none => false
       | some p => reSearch p url.data) := by
    simp [match_url]
  refine ⟨?_, ?_, ?_, ?_⟩
  · rw [hex]; simp
  · rw [hwc]; exact globMatch_correct _ _
  · intro hnone; rw [hre, hnone]
  · intro p hp
    rw [hre, hp]
    exact reSearch_iff p url.data

/-- Witness for C3: the invalid pattern `*` matches nothing as a regex,
and the valid pattern `b.*` found as a substring of `abc`. -/
theorem match_url_semantics_witness :
    match_url "*" "regex" "abc" = false ∧
    (∃ u m w, "abc".data = u ++ m ++ w ∧
      REMatches [RElem.once (RAtom.rchar 'b'), RElem.star RAtom.rdot] m) :=
  ⟨(match_url_semantics "*" "abc").2.2.1 rfl,
   ((match_url_semantics "b.*" "abc").2.2.2
      [RElem.once (RAtom.rchar 'b'), RElem.star RAtom.rdot] rfl).mp (by decide)⟩

/-! ## TrafficBus lemmas -/

theorem drop_append_of_le {α : Type} (n : Nat) (l₁ l₂ : List α) (h : n ≤ l₁.length) :
    (l₁ ++ l₂).drop n = l₁.drop n ++ l₂ := by
  induction l₁ generalizing n with
  | nil =>
    simp only [List.length_nil, Nat.le_zero] at h
    subst h
    simp
  | cons a l ih =>
    cases n with
    | zero => simp
    | succ n =>
      simp only [List.cons_append, List.drop_succ_cons]
      exact ih n (Nat.le_of_succ_le_succ h)

theorem trafficIngest_eq_drop {α : Type} (h : List α) (t : α)
    (hh : h.length ≤ MAX_TRAFFIC_HISTORY) :
    trafficIngest h t = (h ++ [t]).drop (h.length + 1 - MAX_TRAFFIC_HISTORY) := by
  unfold trafficIngest
  by_cases hc : MAX_TRAFFIC_HISTORY < (h ++ [t]).length
  · rw [if_pos hc]
    simp only [List.length_append, List.length_cons, List.length_nil] at hc
    have he : h.length + 1 - MAX_TRAFFIC_HISTORY = 1 := by omega
    rw [he]
  · rw [if_neg hc]
    simp only [List.length_append, List.length_cons, List.length_nil] at hc
    have he : h.length + 1 - MAX_TRAFFIC_HISTORY = 0 := by omega
    rw [he, List.drop_zero]

theorem trafficIngest_length_le {α : Type} (h : List α) (t : α)
    (hh : h.length ≤ MAX_TRAFFIC_HISTORY) :
    (trafficIngest h t).length ≤ MAX_TRAFFIC_HISTORY := by
  rw [trafficIngest_eq_drop h t hh]
  simp only [List.length_drop, List.length_append, List.length_cons, List.length_nil]
  omega

theorem foldl_trafficIngest {α : Type} (txs : List α) :
    ∀ (h : List α), h.length ≤ MAX_TRAFFIC_HISTORY →
      txs.foldl trafficIngest h =
        (h ++ txs).drop (h.length + txs.length - MAX_TRAFFIC_HISTORY) := by
  induction txs with
  | nil =>
    intro h hh
    simp only [List.foldl_nil, List.append_nil, List.length_nil, Nat.add_zero]
    have he : h.length - MAX_TRAFFIC_HISTORY = 0 := by omega
    rw [he, List.drop_zero]
  | cons t ts ih =>
    intro h hh
    rw [List.foldl_cons, ih (trafficIngest h t) (trafficIngest_length_le h t hh),
      trafficIngest_eq_drop h t hh]
    have hle : h.length + 1 - MAX_TRAFFIC_HISTORY ≤ (h ++ [t]).length := by
      simp only [List.length_append, List.length_cons, List.length_nil]
      omega
    rw [← drop_append_of_le _ _ ts hle, List.drop_drop]
    have harr : (h ++ [t]) ++ ts = h ++ t :: ts := by simp
    rw [harr]
    refine congrArg (fun n => List.drop n (h ++ t :: ts)) ?_
    simp only [List.length_drop, List.length_append, List.length_cons, List.length_nil]
    omega

/-- C4: the traffic backlog retains at most `MAX_TRAFFIC_HISTORY = 500`
transactions.  Ingesting any sequence from an empty history leaves
exactly the most recent 500 (the suffix obtained by dropping the oldest
overflow entries, so ingress order is preserved and the oldest are
evicted first); in particular 600 ingresses leave the last 500.  The cap
is re-established by every single ingress step unconditionally. -/
theorem traffic_backlog_capped :
    ∀ (α : Type) (txs : List α),
      ingestAll txs = txs.drop (txs.length - MAX_TRAFFIC_HISTORY) ∧
      (ingestAll txs).length = min txs.length MAX_TRAFFIC_HISTORY ∧
      (∀ (h : List α) (t : α), h.length ≤ MAX_TRAFFIC_HISTORY →
        (trafficIngest h t).length ≤ MAX_TRAFFIC_HISTORY) := by
  intro α txs
  have hmain : ingestAll txs = txs.drop (txs.length - MAX_TRAFFIC_HISTORY) := by
    unfold ingestAll
    rw [foldl_trafficIngest txs [] (Nat.zero_le _)]
    simp only [List.nil_append, List.length_nil, Nat.zero_add]
  refine ⟨hmain, ?_, fun h t hh => trafficIngest_length_le h t hh⟩
  rw [hmain]
  simp only [List.length_drop]
  omega

/-- Witness for C4: a full 500-entry history stays at the cap after one
more ingress. -/
theorem traffic_backlog_capped_witness :
    (trafficIngest (List.replicate 500 0) 7).length ≤ MAX_TRAFFIC_HISTORY :=
  (traffic_backlog_capped Nat []).2.2 (List.replicate 500 0) 7
    (by rw [List.length_replicate]; decide)

/-- C5 counterexample: from the initial state, a first `start` spawns a
process and is still pending (no readiness marker observed, so
`isRunning` is still false); a second `start` issued in that window is
NOT rejected with AlreadyRunning — it spawns a second process, because
the guard only tests `isRunning`, which is set when a readiness marker
resolves the first call. -/
theorem second_start_while_pending_not_rejected :
    (startCall (startCall supervisorInit 1).2 2).1 = StartOutcome.spawned 2 ∧
    (startCall (startCall supervisorInit 1).2 2).1 ≠
      StartOutcome.rejectedAlreadyRunning := by
  constructor
  · rfl
  · decide

/-- C5 amended: `start` fails with AlreadyRunning exactly when
`isRunning` is true, i.e. when a previous start has been resolved as
Running by a readiness marker (or the alive fallback) and no process
exit has been observed since; the rejection leaves the state untouched.
While a start is merely pending (process spawned, marker not yet seen),
`isRunning` is still false, so a second `start` is not rejected — it
spawns another process and overwrites the handle.  Once the marker for a
spawned process has been observed, any further `start` is rejected. -/
theorem start_guard_characterization :
    ∀ (s : SupervisorState) (pid : Nat),
      ((startCall s pid).1 = StartOutcome.rejectedAlreadyRunning ↔ s.isRunning = true) ∧
      (s.isRunning = true → startCall s pid = (StartOutcome.rejectedAlreadyRunning, s)) ∧
      (s.isRunning = false →
        startCall s pid =
          (StartOutcome.spawned pid, { isRunning := false, proc := some pid })) ∧
      (startCall (markerObserved s) pid).1 = StartOutcome.rejectedAlreadyRunning := by
  intro s pid
  refine ⟨?_, ?_, ?_, ?_⟩
  · cases hr : s.isRunning <;> simp [startCall, hr]
  · intro hr; simp [startCall, hr]
  · intro hr; simp [startCall, hr]
  · simp [startCall, markerObserved]

/-- Witness for C5 amended: after the first start's readiness marker is
observed, a second start is rejected and changes nothing. -/
theorem start_guard_characterization_witness :
    startCall (markerObserved (startCall supervisorInit 1).2) 2 =
      (StartOutcome.rejectedAlreadyRunning,
       markerObserved (startCall supervisorInit 1).2) :=
  (start_guard_characterization (markerObserved (startCall supervisorInit 1).2) 2).2.1 rfl

/-! ## RuleStore update lemmas -/

theorem update_not_found_iff (store : List Rule) (id : String) (u : RulePatch)
    (now : String) :
    (RuleStore.update store id u now).2 = Except.error (notFoundMsg id) ↔
      ∀ r ∈ store, r.id ≠ id := by
  induction store with
  | nil => simp [RuleStore.update]
  | cons r rs ih =>
    by_cases hr : r.id = id
    · simp [RuleStore.update, hr]
    · simp [RuleStore.update, hr, ih]

theorem update_error_atomic (store : List Rule) (id : String) (u : RulePatch)
    (now : String) :
    ∀ e, (RuleStore.update store id u now).2 = Except.error e →
      (RuleStore.update store id u now).1 = store := by
  induction store with
  | nil => intro e _; rfl
  | cons r rs ih =>
    intro e he
    by_cases hr : r.id = id
    · simp [RuleStore.update, hr] at he
    · simp only [RuleStore.update, if_neg hr] at he ⊢
      rw [ih e he]

theorem update_ok_char (store : List Rule) (id : String) (u : RulePatch) (now : String) :
    ∀ r', (RuleStore.update store id u now).2 = Except.ok r' →
      ∃ l₁ x l₂, store = l₁ ++ x :: l₂ ∧ (∀ y ∈ l₁, y.id ≠ id) ∧ x.id = id ∧
        r' = RuleStore.mergeRule x u id now ∧
        (RuleStore.update store id u now).1 = l₁ ++ r' :: l₂ := by
  induction store with
  | nil => intro r' h; simp [RuleStore.update] at h
  | cons r rs ih =>
    intro r' h
    by_cases hr : r.id = id
    · simp only [RuleStore.update, hr, if_pos] at h ⊢
      injection h with h
      exact ⟨[], r, rs, rfl, by simp, hr, h.symm, by simp [h]⟩
    · simp only [RuleStore.update, if_neg hr] at h ⊢
      obtain ⟨l₁, x, l₂, hsplit, hfail, hid, hmerge, h1⟩ := ih r' h
      refine ⟨r :: l₁, x, l₂, by simp [hsplit], ?_, hid, hmerge, by simp [h1]⟩
      intro y hy
      rcases List.mem_cons.mp hy with rfl | hy
      · exact hr
      · exact hfail y hy

/-- C6 counterexample: `update` merges the whole partial over the stored
rule and only forces `id` and `updatedAt` back, so a partial that
supplies `createdAt` silently overwrites the original creation stamp —
`createdAt` is not immutable. -/
theorem update_changes_createdAt :
    (RuleStore.update [ruleW] "r1" { createdAt := some "1999-05-05T00:00:00Z" }
        "2025-01-01T00:00:00Z").2 =
      Except.ok { ruleW with createdAt := "1999-05-05T00:00:00Z",
                             updatedAt := "2025-01-01T00:00:00Z" } ∧
    ruleW.createdAt = "2024-01-01T00:00:00Z" ∧
    ("1999-05-05T00:00:00Z" : String) ≠ "2024-01-01T00:00:00Z" :=
  ⟨rfl, rfl, by decide⟩

/-- C6 amended: `update(id, partial)` merges every supplied field into
the first stored rule with that id; `id` is immutable (forced back, a
supplied id is ignored) and `updatedAt` is set to the call time (a
supplied updatedAt is ignored); every field not supplied in the partial,
`createdAt` included, is unchanged, but a supplied `createdAt` is merged
like any other field; rules other than the target are untouched; the
call fails with NotFound exactly when no rule with that id exists. -/
theorem update_merge_characterization :
    ∀ (store : List Rule) (id : String) (u : RulePatch) (now : String) (r : Rule),
      ((RuleStore.update store id u now).2 = Except.error (notFoundMsg id) ↔
        ∀ x ∈ store, x.id ≠ id) ∧
      (∀ r', (RuleStore.update store id u now).2 = Except.ok r' →
        ∃ l₁ x l₂, store = l₁ ++ x :: l₂ ∧ (∀ y ∈ l₁, y.id ≠ id) ∧ x.id = id ∧
          r' = RuleStore.mergeRule x u id now ∧
          (RuleStore.update store id u now).1 = l₁ ++ r' :: l₂) ∧
      (RuleStore.mergeRule r u id now).id = id ∧
      (RuleStore.mergeRule r u id now).updatedAt = now ∧
      (u.createdAt = none → (RuleStore.mergeRule r u id now).createdAt = r.createdAt) ∧
      (u.enabled = none → (RuleStore.mergeRule r u id now).enabled = r.enabled) ∧
      (u.urlPattern = none → (RuleStore.mergeRule r u id now).urlPattern = r.urlPattern) ∧
      (u.urlPatternType = none →
        (RuleStore.mergeRule r u id now).urlPatternType = r.urlPatternType) ∧
      (u.method = none → (RuleStore.mergeRule r u id now).method = r.method) ∧
      (u.statusCode = none → (RuleStore.mergeRule r u id now).statusCode = r.statusCode) ∧
      (u.headers = none → (RuleStore.mergeRule r u id now).headers = r.headers) ∧
      (u.body = none → (RuleStore.mergeRule r u id now).body = r.body) ∧
      (u.delay = none → (RuleStore.mergeRule r u id now).delay = r.delay) ∧
      (u.description = none →
        (RuleStore.mergeRule r u id now).description = r.description) ∧
      (∀ v, u.enabled = some v → (RuleStore.mergeRule r u id now).enabled = v) ∧
      (∀ v, u.createdAt = some v → (RuleStore.mergeRule r u id now).createdAt = v) ∧
      (∀ v, u.urlPattern = some v → (RuleStore.mergeRule r u id now).urlPattern = v) ∧
      (∀ v, u.urlPatternType = some v →
        (RuleStore.mergeRule r u id now).urlPatternType = v) ∧
      (∀ v, u.method = some v → (RuleStore.mergeRule r u id now).method = v) ∧
      (∀ v, u.statusCode = some v → (RuleStore.mergeRule r u id now).statusCode = v) ∧
      (∀ v, u.headers = some v → (RuleStore.mergeRule r u id now).headers = v) ∧
      (∀ v, u.body = some v → (RuleStore.mergeRule r u id now).body = v) ∧
      (∀ v, u.delay = some v → (RuleStore.mergeRule r u id now).delay = v) ∧
      (∀ v, u.description = some v → (RuleStore.mergeRule r u id now).description = v) :=
  fun store id u now r =>
    ⟨update_not_found_iff store id u now,
     update_ok_char store id u now,
     rfl, rfl,
     fun h => by simp [RuleStore.mergeRule, h],
     fun h => by simp [RuleStore.mergeRule, h],
     fun h => by simp [RuleStore.mergeRule, h],
     fun h => by simp [RuleStore.mergeRule, h],
     fun h => by simp [RuleStore.mergeRule, h],
     fun h => by simp [RuleStore.mergeRule, h],
     fun h => by simp [RuleStore.mergeRule, h],
     fun h => by simp [RuleStore.mergeRule, h],
     fun h => by simp [RuleStore.mergeRule, h],
     fun h => by simp [RuleStore.mergeRule, h],
     fun v h => by simp [RuleStore.mergeRule, h],
     fun v h => by simp [RuleStore.mergeRule, h],
     fun v h => by simp [RuleStore.mergeRule, h],
     fun v h => by simp [RuleStore.mergeRule, h],
     fun v h => by simp [RuleStore.mergeRule, h],
     fun v h => by simp [RuleStore.mergeRule, h],
     fun v h => by simp [RuleStore.mergeRule, h],
     fun v h => by simp [RuleStore.mergeRule, h],
     fun v h => by simp [RuleStore.mergeRule, h],
     fun v h => by simp [RuleStore.mergeRule, h]⟩

/-- Witness for C6 amended: with an empty partial the creation stamp is
kept, and updating an absent id reports NotFound. -/
theorem update_merge_characterization_witness :
    (RuleStore.mergeRule ruleW {} "r1" "t9").createdAt = ruleW.createdAt ∧
    (RuleStore.update [ruleW] "zzz" {} "t9").2 = Except.error (notFoundMsg "zzz") :=
  ⟨(update_merge_characterization [] "r1" {} "t9" ruleW).2.2.2.2.1 rfl,
   (update_merge_characterization [ruleW] "zzz" {} "t9" ruleW).1.mpr (by decide)⟩

/-- C7: the recording slot is a two-state machine.  `startRecording`
fails with RecordingAlreadyActive when a recording is active and leaves
the state untouched; otherwise it creates an active recording with an
empty capture sequence.  `stopRecording` fails with NoActiveRecording
when idle.  `ingest` is a no-op when idle and appends a timestamped copy
when active.  A full start → ingest-of-3 → stop cycle yields a persisted
Recording with exactly 3 timestamped entries and the stop time as
endedAt, and returns the slot to Idle. -/
theorem recording_slot_machine :
    ∀ (s : RecState) (name : Option String) (nid now : String) (t : Transaction)
      (tx1 tx2 tx3 : Transaction) (ta tb tc tend : String),
      (∀ m, s.currentRecording = some m →
        startRecording s name nid now =
          (s, Except.error "Recording already in progress")) ∧
      (s.currentRecording = none →
        startRecording s name nid now =
          ({ currentRecording := some { id := nid, name := jsOrStr name (autoName now),
                                        startedAt := now },
             recordedRequests := [] },
           Except.ok { id := nid, name := jsOrStr name (autoName now),
                       startedAt := now })) ∧
      (s.currentRecording = none →
        stopRecording s tend = (s, Except.error "No recording in progress")) ∧
      (s.currentRecording = none → addToRecording s t ta = s) ∧
      (∀ m, s.currentRecording = some m →
        addToRecording s t ta =
          { s with recordedRequests :=
              s.recordedRequests ++ [{ tx := t, recordedAt := ta }] }) ∧
      (stopRecording
          (addToRecording
            (addToRecording
              (addToRecording (startRecording recInit name nid now).1 tx1 ta)
              tx2 tb)
            tx3 tc)
          tend =
        (recInit,
         Except.ok { id := nid, name := jsOrStr name (autoName now), startedAt := now,
                     endedAt := tend,
                     requests := [{ tx := tx1, recordedAt := ta },
                                  { tx := tx2, recordedAt := tb },
                                  { tx := tx3, recordedAt := tc }] })) ∧
      ([{ tx := tx1, recordedAt := ta }, { tx := tx2, recordedAt := tb },
        { tx := tx3, recordedAt := tc }] : List RecordedTransaction).length = 3 := by
  intro s name nid now t tx1 tx2 tx3 ta tb tc tend
  obtain ⟨cur, reqs⟩ := s
  refine ⟨?_, ?_, ?_, ?_, ?_, rfl, rfl⟩
  · intro m hm
    cases hm
    rfl
  · intro h
    cases hm : cur
    · rfl
    · rw [hm] at h; cases h
  · intro h
    cases hm : cur
    · rfl
    · rw [hm] at h; cases h
  · intro h
    cases hm : cur
    · rfl
    · rw [hm] at h; cases h
  · intro m hm
    cases hm
    rfl

/-- Witness for C7: starting while a recording is active fails, and
stopping while idle fails. -/
theorem recording_slot_machine_witness :
    startRecording recActiveW none "x" "t1" =
      (recActiveW, Except.error "Recording already in progress") ∧
    stopRecording recInit "t2" = (recInit, Except.error "No recording in progress") :=
  ⟨(recording_slot_machine recActiveW none "x" "t1" txW txW txW txW "a" "b" "c" "t2").1
      { id := "rid", name := "n", startedAt := "t0" } rfl,
   (recording_slot_machine recInit none "x" "t1" txW txW txW txW "a" "b" "c" "t2").2.2.1
      rfl⟩

/-! ## recordingToRules lemmas -/

theorem ruleReflects_create (recName : String) (rt : RecordedTransaction)
    (resp : RespData) (store : List Rule) (nid now : String)
    (hresp : rt.tx.response = some resp) :
    ruleReflectsTx rt (RuleStore.create store (ruleDataFromTx recName rt.tx resp) nid now).2 := by
  refine ⟨by simp [RuleStore.create, ruleDataFromTx, jsOrStr], rfl, rfl, rfl, ?_⟩
  intro resp' hresp'
  rw [hresp] at hresp'
  injection hresp' with he
  subst he
  refine ⟨rfl, rfl, ?_⟩
  show jsOrStr (some (jsOrStr resp.body "{}")) "{}" = jsOrStr resp.body "{}"
  cases hb : resp.body with
  | none => simp [jsOrStr]
  | some b =>
    by_cases hbe : b = "" <;> simp [jsOrStr, hbe]

theorem recordingToRulesAux_char (recName : String) (txs : List RecordedTransaction)
    (ids times : Nat → String) :
    ∀ (store : List Rule) (k : Nat),
      (recordingToRulesAux recName store txs ids times k).1 =
        store ++ (recordingToRulesAux recName store txs ids times k).2 ∧
      List.Forall₂ ruleReflectsTx (txs.filter (fun rt => rt.tx.response.isSome))
        (recordingToRulesAux recName store txs ids times k).2 := by
  induction txs with
  | nil =>
    intro store k
    exact ⟨by simp [recordingToRulesAux], by simp [recordingToRulesAux]⟩
  | cons rt rest ih =>
    intro store k
    cases hresp : rt.tx.response with
    | none =>
      have hs : rt.tx.response.isSome = false := by rw [hresp]; rfl
      simp only [recordingToRulesAux, hresp, List.filter_cons, hs, Bool.false_eq_true,
        if_false]
      exact ih store k
    | some resp =>
      have hs : rt.tx.response.isSome = true := by rw [hresp]; rfl
      simp only [recordingToRulesAux, hresp, List.filter_cons, hs, if_true]
      obtain ⟨h1, h2⟩ := ih (RuleStore.create store (ruleDataFromTx recName rt.tx resp)
        (ids k) (times k)).1 (k + 1)
      constructor
      · rw [h1]
        have hc : (RuleStore.create store (ruleDataFromTx recName rt.tx resp)
            (ids k) (times k)).1 =
            store ++ [(RuleStore.create store (ruleDataFromTx recName rt.tx resp)
              (ids k) (times k)).2] := rfl
        rw [hc, List.append_assoc]
        rfl
      · exact List.Forall₂.cons (ruleReflects_create recName rt resp store (ids k)
          (times k) hresp) h2

/-- C8 counterexample: a captured transaction whose URL is the empty
string and whose response has status 0 and empty body produces a rule
with pattern `*`, method `ANY`, status 200 and body `{}` — the rule does
not carry the transaction's URL nor reproduce the recorded response
verbatim, because `create` re-applies its truthiness defaults. -/
theorem recordingToRules_not_verbatim :
    (recordingToRules [] recFalsyW (fun _ => "nid") (fun _ => "now")).2.map
        (fun r => (r.urlPattern, r.method, r.statusCode, r.body)) =
      [("*", "ANY", 200, "{}")] ∧
    recFalsyW.requests.map (fun rt => rt.tx.url) = [""] ∧
    ("*" : String) ≠ "" :=
  ⟨rfl, rfl, by decide⟩

/-- C8 amended: `recordingToRules` creates exactly one rule per captured
transaction that carries a response and none for transactions without
one; the created rules are appended to the store in capture order; each
created rule has urlPatternType `exact` and carries the transaction's
URL, method and the recorded response's status/headers/body, except
that falsy values (empty URL, empty method, status 0, empty or absent
body, absent headers) are replaced by the `create` defaults
(`*`, `ANY`, 200, `{}`, Content-Type json). -/
theorem recordingToRules_characterization :
    ∀ (store : List Rule) (rec : Recording) (ids times : Nat → String),
      (recordingToRules store rec ids times).2.length =
        (rec.requests.filter (fun rt => rt.tx.response.isSome)).length ∧
      (recordingToRules store rec ids times).1 =
        store ++ (recordingToRules store rec ids times).2 ∧
      List.Forall₂ ruleReflectsTx
        (rec.requests.filter (fun rt => rt.tx.response.isSome))
        (recordingToRules store rec ids times).2 := by
  intro store rec ids times
  obtain ⟨h1, h2⟩ := recordingToRulesAux_char rec.name rec.requests ids times store 0
  exact ⟨(List.Forall₂.length_eq h2).symm, h1, h2⟩

/-- Witness for C8 amended: on a recording with 2 response-carrying
requests and 1 without, exactly 2 rules are created. -/
theorem recordingToRules_characterization_witness :
    (recordingToRules [] recMixedW (fun _ => "i") (fun _ => "t")).2.length = 2 := by
  have h := (recordingToRules_characterization [] recMixedW (fun _ => "i")
    (fun _ => "t")).1
  rw [h]
  rfl

/-- C9: `create` always sets `enabled` to true on the new rule — any
enabled value supplied by the caller is ignored entirely — and the
defaulting of supplied fields uses JavaScript truthiness coercion rather
than presence checks: a supplied statusCode 0 becomes 200, an
empty-string body becomes `{}`, an empty-string urlPattern becomes `*`,
and an explicitly supplied delay 0 is replaced by the documented default
0 (vacuously equal). -/
theorem create_ignores_enabled_and_falsy :
    ∀ (store : List Rule) (d : CreateData) (newId now : String),
      (RuleStore.create store d newId now).2.enabled = true ∧
      (∀ b, (RuleStore.create store { d with enabled := some b } newId now).2 =
        (RuleStore.create store d newId now).2) ∧
      (d.statusCode = some 0 → (RuleStore.create store d newId now).2.statusCode = 200) ∧
      (d.body = some "" → (RuleStore.create store d newId now).2.body = "{}") ∧
      (d.urlPattern = some "" → (RuleStore.create store d newId now).2.urlPattern = "*") ∧
      (d.delay = some 0 → (RuleStore.create store d newId now).2.delay = 0) := by
  intro store d newId now
  refine ⟨rfl, fun b => rfl, ?_, ?_, ?_, ?_⟩ <;>
    intro h <;> simp [RuleStore.create, jsOrStr, jsOrNat, h]

/-- Witness for C9: a caller-supplied enabled=false, statusCode 0,
empty body and empty urlPattern all get replaced. -/
theorem create_ignores_enabled_and_falsy_witness :
    (RuleStore.create [] dFalsyW "i" "t").2.enabled = true ∧
    (RuleStore.create [] dFalsyW "i" "t").2.statusCode = 200 ∧
    (RuleStore.create [] dFalsyW "i" "t").2.body = "{}" ∧
    (RuleStore.create [] dFalsyW "i" "t").2.urlPattern = "*" :=
  ⟨(create_ignores_enabled_and_falsy [] dFalsyW "i" "t").1,
   (create_ignores_enabled_and_falsy [] dFalsyW "i" "t").2.2.1 rfl,
   (create_ignores_enabled_and_falsy [] dFalsyW "i" "t").2.2.2.1 rfl,
   (create_ignores_enabled_and_falsy [] dFalsyW "i" "t").2.2.2.2.1 rfl⟩

/-! ## remove/toggle NotFound lemmas -/

theorem remove_not_found (store : List Rule) (id : String)
    (h : ∀ r ∈ store, r.id ≠ id) :
    RuleStore.remove store id = (store, Except.error (notFoundMsg id)) := by
  have hf : store.filter (fun r => decide (r.id ≠ id)) = store :=
    List.filter_eq_self.mpr (fun a ha => by simpa using h a ha)
  simp only [RuleStore.remove, hf]
  simp

theorem remove_error_atomic (store : List Rule) (id : String) :
    ∀ s' e, RuleStore.remove store id = (s', Except.error e) → s' = store := by
  intro s' e h
  simp only [RuleStore.remove] at h
  split at h
  · injection h with h1 h2
    exact h1.symm
  · injection h with h1 h2
    simp at h2

theorem toggle_not_found (store : List Rule) (id now : String)
    (h : ∀ r ∈ store, r.id ≠ id) :
    RuleStore.toggle store id now = (store, Except.error (notFoundMsg id)) := by
  have hf : store.find? (fun r => decide (r.id = id)) = none := by
    rw [List.find?_eq_none]
    intro x hx
    simpa using h x hx
  simp [RuleStore.toggle, hf]

theorem toggle_error_atomic (store : List Rule) (id now : String) :
    ∀ s' e, RuleStore.toggle store id now = (s', Except.error e) → s' = store := by
  intro s' e h
  simp only [RuleStore.toggle] at h
  split at h
  · injection h with h1 h2
    exact h1.symm
  · rename_i r heq
    have h2 : (RuleStore.update store id { enabled := some (!r.enabled) } now).2 =
        Except.error e := by rw [h]
    have h1 : (RuleStore.update store id { enabled := some (!r.enabled) } now).1 = s' := by
      rw [h]
    rw [← h1]
    exact update_error_atomic store id _ now e h2

/-- C10: failed rule mutations are atomic with respect to the durable
store.  When `update`, `remove` or `toggle` is called with an id absent
from the store, the call fails with NotFound and the stored ordered rule
set is exactly what it was before the call; more generally, whenever
any of the three operations returns an error, the resulting durable
store equals the input store (the JavaScript code throws before calling
`saveRules`). -/
theorem failed_mutations_atomic :
    ∀ (store : List Rule) (id : String) (u : RulePatch) (now : String),
      ((∀ r ∈ store, r.id ≠ id) →
        RuleStore.update store id u now = (store, Except.error (notFoundMsg id)) ∧
        RuleStore.remove store id = (store, Except.error (notFoundMsg id)) ∧
        RuleStore.toggle store id now = (store, Except.error (notFoundMsg id))) ∧
      (∀ s' e, RuleStore.update store id u now = (s', Except.error e) → s' = store) ∧
      (∀ s' e, RuleStore.remove store id = (s', Except.error e) → s' = store) ∧
      (∀ s' e, RuleStore.toggle store id now = (s', Except.error e) → s' = store) := by
  intro store id u now
  refine ⟨?_, ?_, remove_error_atomic store id, toggle_error_atomic store id now⟩
  · intro h
    refine ⟨?_, remove_not_found store id h, toggle_not_found store id now h⟩
    have h2 : (RuleStore.update store id u now).2 = Except.error (notFoundMsg id) :=
      (update_not_found_iff store id u now).mpr h
    have h1 : (RuleStore.update store id u now).1 = store :=
      update_error_atomic store id u now _ h2
    calc RuleStore.update store id u now
        = ((RuleStore.update store id u now).1, (RuleStore.update store id u now).2) := rfl
      _ = (store, Except.error (notFoundMsg id)) := by rw [h1, h2]
  · intro s' e h
    have h2 : (RuleStore.update store id u now).2 = Except.error e := by rw [h]
    have h1 : (RuleStore.update store id u now).1 = s' := by rw [h]
    rw [← h1]
    exact update_error_atomic store id u now e h2

/-- Witness for C10: removing and toggling an absent id on a one-rule
store reports NotFound and leaves the store unchanged. -/
theorem failed_mutations_atomic_witness :
    RuleStore.remove [ruleW] "zzz" = ([ruleW], Except.error (notFoundMsg "zzz")) ∧
    RuleStore.toggle [ruleW] "zzz" "t9" = ([ruleW], Except.error (notFoundMsg "zzz")) :=
  ⟨((failed_mutations_atomic [ruleW] "zzz" {} "t9").1 (by decide)).2.1,
   ((failed_mutations_atomic [ruleW] "zzz" {} "t9").1 (by decide)).2.2⟩
